import Mathlib

/-!
Verification of the document OCR conversion pipeline:
`ocr_processor.py` (text extraction and cleaning, page aggregation),
`file_converter.py` (text structuring, JSON/CSV encoding, raw-TXT side
artifact) and the blank-document check in `main.py`.

Strings are modelled as `List Char`; Python string operations
(`split`, `strip`, `replace`, `splitlines`, `count`) are embedded as
executable functions on character lists.
-/

namespace OCRPipeline

/-- Whitespace characters recognised by Python's `str.strip()` / `str.split()`
(the ASCII range plus NEL and NBSP, the ones that can occur here). -/
def isSpace (c : Char) : Bool :=
  c = ' ' || c = '\t' || c = '\n' || c = '\r' || c = '\x0b' || c = '\x0c' ||
  c = '\x1c' || c = '\x1d' || c = '\x1e' || c = '\x1f' || c = '\x85' || c = '\xa0'

/-- Drop trailing characters satisfying `isSpace` (the right half of
Python's `str.strip()`). -/
def dropTrail : List Char → List Char
  | [] => []
  | c :: rest =>
    match dropTrail rest with
    | [] => if isSpace c then [] else [c]
    | h :: tl => c :: h :: tl

/-- Python `str.strip()`: remove leading and trailing whitespace. -/
def strip (t : List Char) : List Char := dropTrail (t.dropWhile isSpace)

/-- Python `str.split(sep)` for a one-character separator: cut at every
occurrence of a character satisfying `p`, keeping empty pieces. -/
def splitOnPred (p : Char → Bool) : List Char → List (List Char)
  | [] => [[]]
  | c :: rest =>
    if p c then [] :: splitOnPred p rest
    else
      match splitOnPred p rest with
      | [] => [[c]]
      | h :: tl => (c :: h) :: tl

/-- Python `str.split()` with no argument: whitespace-run tokenisation,
empty tokens discarded. Used for the `words` list and word counts. -/
def pySplit (t : List Char) : List (List Char) :=
  (splitOnPred isSpace t).filter (fun w => w ≠ [])

/-- Python `text.split('\n\n')`: leftmost non-overlapping cuts at two
consecutive LFs. -/
def splitDoubleLF : List Char → List (List Char)
  | [] => [[]]
  | '\n' :: '\n' :: rest => [] :: splitDoubleLF rest
  | c :: rest =>
    match splitDoubleLF rest with
    | [] => [[c]]
    | h :: tl => (c :: h) :: tl

/-- Does the text contain the substring `"\r\n"`? (Python `"\r\n" in text`.) -/
def hasCRLF : List Char → Bool
  | [] => false
  | [_] => false
  | a :: b :: rest => (a = '\r' && b = '\n') || hasCRLF (b :: rest)

/-- Does the text contain a CR character? (Python `"\r" in text`.) -/
def hasCR (t : List Char) : Bool := t.any (fun c => c = '\r')

/-- Python `text.replace("\r\n", "\n")`: leftmost non-overlapping
replacement of every CRLF pair by a single LF. -/
def replaceCRLF : List Char → List Char
  | [] => []
  | '\r' :: '\n' :: rest => '\n' :: replaceCRLF rest
  | c :: rest => c :: replaceCRLF rest

/-- Python `text.replace("\r", "\n")`: every CR becomes an LF. -/
def replaceCR (t : List Char) : List Char :=
  t.map (fun c => if c = '\r' then '\n' else c)

/-- The newline-normalisation step of
`FileConverter._parse_text_to_structured_data` (file_converter.py
lines 289-293): `if "\r\n" in text: text = text.replace("\r\n", "\n")
elif "\r" in text: text = text.replace("\r", "\n")`. -/
def normalizeNewlines (t : List Char) : List Char :=
  if hasCRLF t then replaceCRLF t
  else if hasCR t then replaceCR t
  else t

/-- Is `c` a sentence terminator (the regex class `[.!?]`)? -/
def isTerm (c : Char) : Bool := c = '.' || c = '!' || c = '?'

/-- Worker for `splitTerms`: `inRun` records whether we are inside a run of
terminators (a greedy `[.!?]+` match already opened a boundary). -/
def splitTermsGo : Bool → List Char → List (List Char)
  | _, [] => [[]]
  | inRun, c :: rest =>
    if isTerm c then
      if inRun then splitTermsGo true rest
      else [] :: splitTermsGo true rest
    else
      match splitTermsGo false rest with
      | [] => [[c]]
      | h :: tl => (c :: h) :: tl

/-- Python `re.split(r"[.!?]+", s)`: split on maximal runs of sentence
terminators. -/
def splitTerms (t : List Char) : List (List Char) := splitTermsGo false t

/-- The literal `'--- Page'` searched for by the page-count heuristic. -/
def markerLit : List Char := ("--- Page").data

/-- Python `'--- Page' in text`. -/
def hasMarker : List Char → Bool
  | [] => false
  | c :: rest => markerLit.isPrefixOf (c :: rest) || hasMarker rest

/-- Python `text.count('--- Page')`: leftmost non-overlapping occurrence
count. -/
def countMarker : List Char → Nat
  | [] => 0
  | c :: rest =>
    if markerLit.isPrefixOf (c :: rest) then
      1 + countMarker (rest.drop (markerLit.length - 1))
    else countMarker rest
termination_by t => t.length
decreasing_by
  · simp only [List.length_cons, List.length_drop]
    omega
  · simp

/-- The structured decomposition produced by
`FileConverter._parse_text_to_structured_data`. -/
structure StructuredData where
  paragraphs : List (List Char)
  sentences : List (List Char)
  words : List (List Char)
  page_count : Nat
deriving Repr, DecidableEq

/-- The `try` body of `FileConverter._parse_text_to_structured_data`
(file_converter.py lines 288-316): normalise newlines, split paragraphs on
`'\n\n'` (strip, drop empties), split each paragraph's sentences on
`[.!?]+` (strip, drop empties), whitespace-split words, and derive the
page count from `'--- Page'` marker occurrences. -/
def parseBody (t : List Char) : StructuredData :=
  let text := normalizeNewlines t
  let paragraphs := ((splitDoubleLF text).map strip).filter (fun p => p ≠ [])
  let sentences :=
    paragraphs.flatMap (fun p => ((splitTerms p).map strip).filter (fun s => s ≠ []))
  let words := pySplit text
  let page_count := if hasMarker text then countMarker text + 1 else 1
  { paragraphs := paragraphs, sentences := sentences,
    words := words, page_count := page_count }

/-- The `try`/`except` wrapper of `_parse_text_to_structured_data`
(lines 288 and 318-325), abstracted over an arbitrary fallible body: on any
internal fault the degenerate structure `{[text], [text], text.split(), 1}`
is returned instead of propagating the fault. -/
def structureWithFallback (body : List Char → Except Unit StructuredData)
    (t : List Char) : StructuredData :=
  match body t with
  | Except.ok sd => sd
  | Except.error _ =>
    { paragraphs := [t], sentences := [t], words := pySplit t, page_count := 1 }

/-- `FileConverter._parse_text_to_structured_data`: the actual body never
fails in the embedding, so the wrapper is applied to the total `parseBody`. -/
def parseTextToStructuredData (t : List Char) : StructuredData :=
  structureWithFallback (fun s => Except.ok (parseBody s)) t

/-- Does the text contain three consecutive LFs?
(Python `'\n\n\n' in cleaned_text`.) -/
def hasTripleLF : List Char → Bool
  | a :: b :: c :: rest => (a = '\n' && b = '\n' && c = '\n') || hasTripleLF (b :: c :: rest)
  | _ => false

/-- Does the text contain two consecutive LFs? -/
def hasDoubleLF : List Char → Bool
  | a :: b :: rest => (a = '\n' && b = '\n') || hasDoubleLF (b :: rest)
  | _ => false

/-- Python `text.replace('\n\n\n', '\n\n')`: one leftmost non-overlapping
replacement pass. -/
def replaceTripleLF : List Char → List Char
  | '\n' :: '\n' :: '\n' :: rest => '\n' :: '\n' :: replaceTripleLF rest
  | c :: rest => c :: replaceTripleLF rest
  | [] => []

/-- The `while '\n\n\n' in cleaned_text` loop of `OCRProcessor._clean_text`
(ocr_processor.py lines 145-146), run on explicit fuel; each pass strictly
shrinks the text, so `s.length` passes always reach the fixpoint. -/
def collapseFuel : Nat → List Char → List Char
  | 0, s => s
  | n + 1, s => if hasTripleLF s then collapseFuel n (replaceTripleLF s) else s

/-- The collapse loop with enough fuel to terminate. -/
def collapseLoop (s : List Char) : List Char := collapseFuel s.length s

/-- The per-line part of `OCRProcessor._clean_text` (lines 130-139): split
on LF, strip each line, keep only lines non-empty after stripping. -/
def cleanLines (t : List Char) : List (List Char) :=
  ((splitOnPred (fun c => c = '\n') t).map strip).filter (fun l => l ≠ [])

/-- Join a list of texts with a separator (Python `sep.join(xs)`). -/
def joinSep (sep : List Char) : List (List Char) → List Char
  | [] => []
  | [x] => x
  | x :: y :: xs => x ++ sep ++ joinSep sep (y :: xs)

/-- `OCRProcessor._clean_text` (ocr_processor.py lines 122-148): empty input
maps to empty output; otherwise strip each line, drop blank lines, rejoin
with single LFs, then collapse runs of 3+ LFs down to 2. -/
def cleanText (t : List Char) : List Char :=
  if t = [] then []
  else collapseLoop (joinSep ['\n'] (cleanLines t))

/-- Decimal digit character. -/
def digitChar (d : Nat) : Char := Char.ofNat (48 + d)

/-- Decimal digits of `n`, most significant first, on explicit fuel. -/
def natDigitsGo : Nat → Nat → List Char → List Char
  | 0, _, acc => acc
  | fuel + 1, n, acc =>
    if n < 10 then digitChar n :: acc
    else natDigitsGo fuel (n / 10) (digitChar (n % 10) :: acc)

/-- Decimal representation of `n` (Python `f"{n}"`). -/
def natDigits (n : Nat) : List Char := natDigitsGo (n + 1) n []

/-- The page marker header `f"--- Page {i + 1} ---"` (ocr_processor.py
line 57), for 1-based page number `n`. -/
def markerStr (n : Nat) : List Char :=
  ("--- Page ").data ++ natDigits n ++ (" ---").data

/-- One appended element `f"--- Page {i + 1} ---\n{page_text}"` for
0-based page index `i` with cleaned page text `t`. -/
def markerBlock (i : Nat) (t : List Char) : List Char :=
  markerStr (i + 1) ++ '\n' :: t

/-- The loop of `OCRProcessor._process_pdf` (lines 49-57) starting at
0-based page index `i`: a block is appended only when the cleaned page
text is non-blank (`if page_text.strip():`). -/
def pageBlocksFrom (i : Nat) : List (List Char) → List (List Char)
  | [] => []
  | t :: rest =>
    if strip t ≠ [] then markerBlock i t :: pageBlocksFrom (i + 1) rest
    else pageBlocksFrom (i + 1) rest

/-- All emitted page blocks, pages enumerated from index 0. -/
def pageBlocks (pages : List (List Char)) : List (List Char) :=
  pageBlocksFrom 0 pages

/-- The 1-based page numbers whose marker is emitted, from index `i`. -/
def markerIndicesFrom (i : Nat) : List (List Char) → List Nat
  | [] => []
  | t :: rest =>
    if strip t ≠ [] then (i + 1) :: markerIndicesFrom (i + 1) rest
    else markerIndicesFrom (i + 1) rest

/-- The 1-based page numbers whose marker is emitted. -/
def markerIndices (pages : List (List Char)) : List Nat :=
  markerIndicesFrom 0 pages

/-- Failure modes of the extraction pipeline surfaced to the caller. -/
inductive ExtractError where
  | emptyDocument
  | noTextExtracted
deriving Repr, DecidableEq

/-- `OCRProcessor._process_pdf` (ocr_processor.py lines 36-63) on the list
of cleaned per-page texts: error on a pageless document (`if not images:`),
otherwise `"\n\n".join` of the non-blank page blocks. -/
def processPdf (pages : List (List Char)) : Except ExtractError (List Char) :=
  if pages = [] then Except.error ExtractError.emptyDocument
  else Except.ok (joinSep ['\n', '\n'] (pageBlocks pages))

/-- The extraction step of `main.upload_file` (main.py lines 80-86):
run `process_file` and fail with `NoTextExtracted` when the extracted
text is blank (`if not extracted_text.strip():`). -/
def uploadExtract (pages : List (List Char)) : Except ExtractError (List Char) :=
  match processPdf pages with
  | Except.error e => Except.error e
  | Except.ok text =>
    if strip text = [] then Except.error ExtractError.noTextExtracted
    else Except.ok text

/-- Line-break characters recognised by Python's `str.splitlines()`. -/
def isLineBreak (c : Char) : Bool :=
  c = '\n' || c = '\r' || c = '\x0b' || c = '\x0c' || c = '\x1c' ||
  c = '\x1d' || c = '\x1e' || c = '\x85' || c = '\u2028' || c = '\u2029'

/-- Python `text.splitlines()`: split at line breaks (CRLF counts as one
break), with no trailing empty line. -/
def splitlines : List Char → List (List Char)
  | [] => []
  | '\r' :: '\n' :: rest => [] :: splitlines rest
  | c :: rest =>
    if isLineBreak c then [] :: splitlines rest
    else
      match splitlines rest with
      | [] => [[c]]
      | h :: tl => (c :: h) :: tl

/-- The data rows built by `FileConverter._convert_to_csv_sync`
(file_converter.py lines 203-209): one `(1-based index, line)` row per
line of `text.splitlines()`, and the single fallback row `(1, text)` when
there are zero lines. -/
def csvRows (text : List Char) : List (Nat × List Char) :=
  let lines := splitlines text
  let rows := (lines.enum).map (fun p => (p.1 + 1, p.2))
  if lines.length = 0 then rows ++ [(1, text)] else rows

/-- The header row `["Line Number", "Line Text"]` (line 204). -/
def csvHeader : List Char × List Char := (("Line Number").data, ("Line Text").data)

/-- The `document_info` object of the JSON output. -/
structure DocumentInfo where
  total_pages : Nat
  total_paragraphs : Nat
  total_words : Nat
  total_characters : Nat
deriving Repr, DecidableEq

/-- The `content` object of the JSON output. -/
structure JsonContent where
  full_text : List Char
  paragraphs : List (List Char)
  sentences : List (List Char)
  words : List (List Char)
deriving Repr, DecidableEq

/-- The top-level JSON object written by `FileConverter._convert_to_json`
(metadata fields are fixed literals and omitted). -/
structure JsonDoc where
  document_info : DocumentInfo
  content : JsonContent
deriving Repr, DecidableEq

/-- The JSON object built by `FileConverter._convert_to_json`
(file_converter.py lines 61-91): `total_words` and `total_characters` are
computed from the raw text argument, the content lists come from the
Structurer. Serialisation and re-parsing by the JSON library are
value-faithful, so the object itself models the round-trip result. -/
def convertToJson (t : List Char) : JsonDoc :=
  let sd := parseTextToStructuredData t
  { document_info :=
      { total_pages := sd.page_count
        total_paragraphs := sd.paragraphs.length
        total_words := (pySplit t).length
        total_characters := t.length }
    content :=
      { full_text := t
        paragraphs := sd.paragraphs
        sentences := sd.sentences
        words := sd.words } }

/-- An output path, split as stem plus extension (the caller passes
`<file_id>.<format>`; `Path.with_suffix` swaps the extension). -/
structure OutPath where
  stem : List Char
  ext : List Char
deriving Repr, DecidableEq

/-- Python `Path.with_suffix`: replace the extension. -/
def withSuffix (p : OutPath) (newExt : List Char) : OutPath :=
  { stem := p.stem, ext := newExt }

/-- A filesystem snapshot: the files written so far, later writes first. -/
def FS : Type := List (OutPath × List Char)

/-- Write (or overwrite) a file. -/
def fsWrite (fs : FS) (p : OutPath) (content : List Char) : FS :=
  (p, content) :: fs

/-- Read a file back, if present. -/
def fsRead (fs : FS) (p : OutPath) : Option (List Char) :=
  match fs with
  | [] => none
  | (q, c) :: rest => if q = p then some c else fsRead rest p

/-- The byte content of the CSV artifact, abstracted to its row list:
header first, then the data rows. -/
def csvFileContent (text : List Char) : List (List Char × List Char) :=
  csvHeader :: (csvRows text).map (fun r => (natDigits r.1, r.2))

/-- A file body: either raw text or an encoded CSV row list. -/
inductive FileBody where
  | rawText (t : List Char)
  | csvBody (rows : List (List Char × List Char))
deriving Repr, DecidableEq

/-- A filesystem of typed file bodies. -/
def FSB : Type := List (OutPath × FileBody)

/-- Write (or overwrite) a typed file. -/
def fsbWrite (fs : FSB) (p : OutPath) (content : FileBody) : FSB :=
  (p, content) :: fs

/-- Read a typed file back, if present. -/
def fsbRead (fs : FSB) (p : OutPath) : Option FileBody :=
  match fs with
  | [] => none
  | (q, c) :: rest => if q = p then some c else fsbRead rest p

/-- The `'csv'` branch of `FileConverter.convert_to_format`
(file_converter.py lines 40-47) with `_write_raw_txt` (lines 256-266):
derive the `.txt` sibling path, write the raw text there verbatim, read
that file back, and build the line-oriented CSV from the read-back
content. -/
def convertToFormatCsv (text : List Char) (outputPath : OutPath) (fs : FSB) : FSB :=
  let txtPath := withSuffix outputPath (".txt").data
  let fs1 := fsbWrite fs txtPath (FileBody.rawText text)
  match fsbRead fs1 txtPath with
  | some (FileBody.rawText txtContent) =>
      fsbWrite fs1 outputPath (FileBody.csvBody (csvFileContent txtContent))
  | _ => fs1

lemma splitOnPred_ne_nil (p : Char → Bool) (t : List Char) : splitOnPred p t ≠ [] := by
  induction t with
  | nil => simp [splitOnPred]
  | cons c rest ih =>
    simp only [splitOnPred]
    by_cases hp : p c
    · simp [hp]
    · rw [if_neg hp]
      rcases h : splitOnPred p rest with _ | ⟨a, l⟩
      · simp
      · simp

lemma mem_splitOnPred {p : Char → Bool} {t x : List Char}
    (hx : x ∈ splitOnPred p t) : ∀ c ∈ x, p c = false := by
  induction t generalizing x with
  | nil =>
    simp only [splitOnPred, List.mem_singleton] at hx
    subst hx
    simp
  | cons a rest ih =>
    simp only [splitOnPred] at hx
    by_cases hp : p a
    · rw [if_pos hp] at hx
      rcases List.mem_cons.mp hx with rfl | h
      · simp
      · exact ih h
    · rw [if_neg hp] at hx
      rcases hsp : splitOnPred p rest with _ | ⟨h0, tl⟩
      · exact absurd hsp (splitOnPred_ne_nil p rest)
      · rw [hsp] at hx
        rcases List.mem_cons.mp hx with rfl | h
        · intro c hc
          rcases List.mem_cons.mp hc with rfl | hc'
          · exact Bool.eq_false_iff.mpr hp
          · exact ih (by rw [hsp]; exact List.mem_cons_self h0 tl) c hc'
        · exact ih (by rw [hsp]; exact List.mem_cons_of_mem h0 h)

lemma mem_dropTrail {l : List Char} {c : Char} (h : c ∈ dropTrail l) : c ∈ l := by
  induction l with
  | nil => simp [dropTrail] at h
  | cons a rest ih =>
    simp only [dropTrail] at h
    rcases hd : dropTrail rest with _ | ⟨x, xs⟩
    · rw [hd] at h
      by_cases ha : isSpace a
      · simp [ha] at h
      · simp [ha] at h
        simp [h]
    · rw [hd] at h
      rcases List.mem_cons.mp h with rfl | h'
      · exact List.mem_cons_self _ _
      · exact List.mem_cons_of_mem _ (ih (hd ▸ h'))

lemma mem_strip {l : List Char} {c : Char} (h : c ∈ strip l) : c ∈ l :=
  (List.dropWhile_sublist isSpace).subset (mem_dropTrail h)

lemma dropWhile_head_false {p : Char → Bool} {l r : List Char} {c : Char}
    (h : l.dropWhile p = c :: r) : p c = false := by
  induction l with
  | nil => simp [List.dropWhile] at h
  | cons a rest ih =>
    rw [List.dropWhile_cons] at h
    by_cases hp : p a
    · rw [if_pos hp] at h; exact ih h
    · rw [if_neg hp] at h
      injection h with h1 _
      subst h1
      exact Bool.eq_false_iff.mpr hp

lemma dropTrail_eq_cons {l r : List Char} {c : Char}
    (h : dropTrail l = c :: r) : ∃ l', l = c :: l' := by
  cases l with
  | nil => simp [dropTrail] at h
  | cons a rest =>
    simp only [dropTrail] at h
    rcases hd : dropTrail rest with _ | ⟨x, xs⟩
    · rw [hd] at h
      by_cases ha : isSpace a
      · simp [ha] at h
      · simp [ha] at h
        exact ⟨rest, by rw [h.1]⟩
    · rw [hd] at h
      injection h with h1 _
      exact ⟨rest, by rw [h1]⟩

lemma strip_head_not_space {l r : List Char} {c : Char}
    (h : strip l = c :: r) : isSpace c = false := by
  unfold strip at h
  obtain ⟨l', hl'⟩ := dropTrail_eq_cons h
  exact dropWhile_head_false hl'

lemma dropTrail_getLast_not_space :
    ∀ {l : List Char} {c : Char}, (dropTrail l).getLast? = some c → isSpace c = false := by
  intro l
  induction l with
  | nil => intro c h; simp [dropTrail] at h
  | cons a rest ih =>
    intro c h
    simp only [dropTrail] at h
    rcases hd : dropTrail rest with _ | ⟨x, xs⟩
    · rw [hd] at h
      by_cases ha : isSpace a
      · simp [ha] at h
      · simp [ha] at h
        rw [← h]
        exact Bool.eq_false_iff.mpr ha
    · rw [hd] at h
      rw [List.getLast?_cons_cons] at h
      exact ih (by rw [hd]; exact h)

lemma strip_getLast_not_space {l : List Char} {c : Char}
    (h : (strip l).getLast? = some c) : isSpace c = false :=
  dropTrail_getLast_not_space h

lemma hasDoubleLF_append {x s : List Char} (hx : ∀ c ∈ x, c ≠ '\n') :
    hasDoubleLF (x ++ s) = hasDoubleLF s := by
  induction x with
  | nil => rfl
  | cons a xtl ih =>
    have ha : a ≠ '\n' := hx a (List.mem_cons_self a xtl)
    have hx' : ∀ c ∈ xtl, c ≠ '\n' := fun c hc => hx c (List.mem_cons_of_mem a hc)
    show hasDoubleLF (a :: (xtl ++ s)) = hasDoubleLF s
    rcases hxs : xtl ++ s with _ | ⟨b, l⟩
    · rcases List.append_eq_nil.mp hxs with ⟨h1, h2⟩
      subst h1 h2
      rfl
    · have h2 : hasDoubleLF (a :: b :: l) = hasDoubleLF (b :: l) := by
        show ((a = '\n' && b = '\n') || hasDoubleLF (b :: l)) = hasDoubleLF (b :: l)
        have hd : (a = '\n' : Bool) = false := decide_eq_false_iff_not.mpr ha
        rw [hd, Bool.false_and, Bool.false_or]
      rw [h2, ← hxs]
      exact ih hx'

lemma joinSep_cons_append (sep b : List Char) (bs : List (List Char)) :
    ∃ w, joinSep sep (b :: bs) = b ++ w := by
  cases bs with
  | nil => exact ⟨[], by simp [joinSep]⟩
  | cons y ys =>
    exact ⟨sep ++ joinSep sep (y :: ys), by simp [joinSep, List.append_assoc]⟩

lemma noDoubleLF_joinSep {bs : List (List Char)}
    (h1 : ∀ b ∈ bs, b ≠ []) (h2 : ∀ b ∈ bs, ∀ c ∈ b, c ≠ '\n') :
    hasDoubleLF (joinSep ['\n'] bs) = false := by
  induction bs with
  | nil => rfl
  | cons b rest ih =>
    cases rest with
    | nil =>
      have hb : ∀ c ∈ b, c ≠ '\n' := h2 b (List.mem_cons_self _ _)
      have := hasDoubleLF_append (s := []) hb
      simpa [joinSep] using this
    | cons y ys =>
      have hb : ∀ c ∈ b, c ≠ '\n' := h2 b (List.mem_cons_self _ _)
      have hy : y ≠ [] := h1 y (List.mem_cons_of_mem _ (List.mem_cons_self _ _))
      obtain ⟨w, hw⟩ := joinSep_cons_append ['\n'] y ys
      have hrest : hasDoubleLF (joinSep ['\n'] (y :: ys)) = false := by
        refine ih ?_ ?_
        · intro u hu; exact h1 u (List.mem_cons_of_mem _ hu)
        · intro u hu; exact h2 u (List.mem_cons_of_mem _ hu)
      have hjoin : joinSep ['\n'] (b :: y :: ys)
          = b ++ (['\n'] ++ joinSep ['\n'] (y :: ys)) := by
        simp [joinSep, List.append_assoc]
      rw [hjoin, hasDoubleLF_append hb]
      rcases hyst : joinSep ['\n'] (y :: ys) with _ | ⟨c0, rest0⟩
      · rfl
      · have hc0 : c0 ≠ '\n' := by
          cases y with
          | nil => exact absurd rfl hy
          | cons d y' =>
            have hdy : d :: (y' ++ w) = c0 :: rest0 := by
              rw [← List.cons_append, ← hw, hyst]
            have hd : d ≠ '\n' :=
              h2 (d :: y') (List.mem_cons_of_mem _ (List.mem_cons_self _ _)) d
                (List.mem_cons_self _ _)
            injection hdy with h1' _
            rw [← h1']
            exact hd
        have step : hasDoubleLF (['\n'] ++ c0 :: rest0)
            = (('\n' = '\n' && c0 = '\n') || hasDoubleLF (c0 :: rest0)) := rfl
        rw [step, decide_eq_false_iff_not.mpr hc0]
        simp only [Bool.and_false, Bool.false_or]
        rw [← hyst]
        exact hrest

lemma noTriple_of_noDouble {s : List Char} (h : hasDoubleLF s = false) :
    hasTripleLF s = false := by
  induction s with
  | nil => rfl
  | cons a rest ih =>
    cases rest with
    | nil => rfl
    | cons b l =>
      cases l with
      | nil => rfl
      | cons c l' =>
        have hsplit : hasDoubleLF (a :: b :: c :: l')
            = ((a = '\n' && b = '\n') || hasDoubleLF (b :: c :: l')) := rfl
        rw [hsplit] at h
        rcases Bool.or_eq_false_iff.mp h with ⟨hab, hrest⟩
        have ht : hasTripleLF (a :: b :: c :: l')
            = ((a = '\n' && b = '\n' && c = '\n') || hasTripleLF (b :: c :: l')) := rfl
        rw [ht, ih hrest, Bool.or_false, hab, Bool.false_and]

lemma collapseFuel_of_noTriple {s : List Char} (h : hasTripleLF s = false) :
    ∀ n, collapseFuel n s = s := by
  intro n
  cases n with
  | zero => rfl
  | succ m => simp [collapseFuel, h]

lemma mem_cleanLines {t l : List Char} (h : l ∈ cleanLines t) :
    l ≠ [] ∧ (∀ c ∈ l, c ≠ '\n') ∧
    (∀ c, l.head? = some c → isSpace c = false) ∧
    (∀ c, l.getLast? = some c → isSpace c = false) := by
  unfold cleanLines at h
  rcases List.mem_filter.mp h with ⟨hmem, hne⟩
  rcases List.mem_map.mp hmem with ⟨x, hx, rfl⟩
  have hxlf : ∀ c ∈ x, c ≠ '\n' := by
    intro c hc
    have := mem_splitOnPred hx c hc
    simpa using this
  refine ⟨by simpa using hne, ?_, ?_, ?_⟩
  · intro c hc
    exact hxlf c (mem_strip hc)
  · intro c hc
    rcases hs : strip x with _ | ⟨a, r⟩
    · rw [hs] at hc; simp at hc
    · rw [hs] at hc
      simp only [List.head?_cons, Option.some_inj] at hc
      rw [← hc]
      exact strip_head_not_space hs
  · intro c hc
    exact strip_getLast_not_space hc

lemma cleanJoin_noDouble (t : List Char) :
    hasDoubleLF (joinSep ['\n'] (cleanLines t)) = false :=
  noDoubleLF_joinSep (fun _ hb => (mem_cleanLines hb).1)
    (fun _ hb => (mem_cleanLines hb).2.1)

lemma cleanText_eq_join (t : List Char) :
    cleanText t = joinSep ['\n'] (cleanLines t) := by
  unfold cleanText
  by_cases ht : t = []
  · subst ht
    rfl
  · rw [if_neg ht]
    exact collapseFuel_of_noTriple (noTriple_of_noDouble (cleanJoin_noDouble t)) _

lemma cleanText_head_not_space {t : List Char} {c : Char} {r : List Char}
    (h : cleanText t = c :: r) : isSpace c = false := by
  rw [cleanText_eq_join] at h
  rcases hcl : cleanLines t with _ | ⟨b, bs⟩
  · rw [hcl] at h; simp [joinSep] at h
  · obtain ⟨w, hw⟩ := joinSep_cons_append ['\n'] b bs
    rw [hcl, hw] at h
    have hb := mem_cleanLines (hcl ▸ List.mem_cons_self b bs)
    rcases hbc : b with _ | ⟨d, b'⟩
    · exact absurd hbc hb.1
    · rw [hbc] at h
      simp only [List.cons_append] at h
      injection h with h1 _
      refine hb.2.2.1 c ?_
      rw [hbc, ← h1]
      rfl

lemma digitChar_ne_lf : ∀ d : Nat, d < 10 → digitChar d ≠ '\n' := by decide

lemma mem_natDigitsGo :
    ∀ (fuel n : Nat) (acc : List Char) (c : Char), c ∈ natDigitsGo fuel n acc →
      c ∈ acc ∨ ∃ d, d < 10 ∧ c = digitChar d := by
  intro fuel
  induction fuel with
  | zero => intro n acc c h; exact Or.inl h
  | succ m ih =>
    intro n acc c h
    simp only [natDigitsGo] at h
    by_cases hn : n < 10
    · rw [if_pos hn] at h
      rcases List.mem_cons.mp h with rfl | h'
      · exact Or.inr ⟨n, hn, rfl⟩
      · exact Or.inl h'
    · rw [if_neg hn] at h
      rcases ih (n / 10) (digitChar (n % 10) :: acc) c h with h' | h'
      · rcases List.mem_cons.mp h' with rfl | h''
        · exact Or.inr ⟨n % 10, Nat.mod_lt n (by norm_num), rfl⟩
        · exact Or.inl h''
      · exact Or.inr h'

lemma markerStr_noLF (n : Nat) : ∀ c ∈ markerStr n, c ≠ '\n' := by
  intro c hc
  unfold markerStr at hc
  rcases List.mem_append.mp hc with h | h
  · rcases List.mem_append.mp h with h' | h'
    · exact (by decide : ∀ x ∈ ("--- Page ").data, x ≠ '\n') c h'
    · rcases mem_natDigitsGo (n + 1) n [] c h' with h'' | ⟨d, hd, rfl⟩
      · simp at h''
      · exact digitChar_ne_lf d hd
  · exact (by decide : ∀ x ∈ (" ---").data, x ≠ '\n') c h

lemma ne_lf_of_not_space {c : Char} (h : isSpace c = false) : c ≠ '\n' := by
  intro hc
  subst hc
  simp [isSpace] at h

lemma hasDoubleLF_markerBlock (i : Nat) (t : List Char) :
    hasDoubleLF (markerBlock i (cleanText t)) = false := by
  unfold markerBlock
  rw [hasDoubleLF_append (markerStr_noLF (i + 1))]
  rcases hct : cleanText t with _ | ⟨c, r⟩
  · rfl
  · have hc : c ≠ '\n' :=
      ne_lf_of_not_space (cleanText_head_not_space hct)
    have step : hasDoubleLF ('\n' :: c :: r)
        = (('\n' = '\n' && c = '\n') || hasDoubleLF (c :: r)) := rfl
    rw [step, decide_eq_false_iff_not.mpr hc]
    simp only [Bool.and_false, Bool.false_or]
    rw [← hct, cleanText_eq_join]
    exact cleanJoin_noDouble t

lemma pageBlocksFrom_nil_of_blank :
    ∀ (pages : List (List Char)), (∀ t ∈ pages, strip t = []) →
      ∀ i, pageBlocksFrom i pages = [] := by
  intro pages
  induction pages with
  | nil => intro _ _; rfl
  | cons t rest ih =>
    intro h i
    have ht : strip t = [] := h t (List.mem_cons_self _ _)
    simp only [pageBlocksFrom]
    rw [if_neg (fun hn => hn ht)]
    exact ih (fun u hu => h u (List.mem_cons_of_mem _ hu)) (i + 1)

lemma not_cr_mem_replaceCR (t : List Char) : '\r' ∉ replaceCR t := by
  intro h
  rcases List.mem_map.mp h with ⟨c, _, hc⟩
  by_cases hr : c = '\r'
  · simp [hr] at hc
  · simp [hr] at hc

lemma not_cr_of_hasCR_false {t : List Char} (h : hasCR t = false) : '\r' ∉ t := by
  intro hmem
  have := List.any_eq_false.mp h '\r' hmem
  simp at this

/-- C2 (counterexample): on an input containing both a CRLF pair and a lone
CR, the normalisation step of `_parse_text_to_structured_data` leaves a CR
in the text used for paragraph splitting — the `elif` branch never runs
once a CRLF was found, contradicting the claim that no CR survives. -/
theorem newline_normalization_keeps_lone_CR :
    '\r' ∈ normalizeNewlines ("a\r\nb\rc").data := by decide

/-- C2 (amended): the normalisation replaces every CRLF with LF when any
CRLF is present and only otherwise replaces lone CRs; hence the split text
is CR-free only for inputs without CRLF, and for an input with both CRLF
and a lone CR the lone CR survives (`"a\r\nb\rc"` becomes `"a\nb\rc"`). -/
theorem newline_normalization_amended :
    (∀ t : List Char, hasCRLF t = false → '\r' ∉ normalizeNewlines t) ∧
    normalizeNewlines ("a\r\nb\rc").data = ("a\nb\rc").data := by
  constructor
  · intro t h hc
    unfold normalizeNewlines at hc
    rw [h] at hc
    simp only [Bool.false_eq_true, if_false] at hc
    by_cases hr : hasCR t
    · rw [if_pos hr] at hc
      exact not_cr_mem_replaceCR t hc
    · rw [if_neg hr] at hc
      exact not_cr_of_hasCR_false (Bool.eq_false_iff.mpr hr) hc
  · decide

/-- Witness for the amended C2 at a concrete CRLF-free input. -/
theorem newline_normalization_amended_witness :
    hasCRLF ("x\ry").data = false ∧ '\r' ∉ normalizeNewlines ("x\ry").data :=
  ⟨by decide, newline_normalization_amended.1 (("x\ry").data) (by decide)⟩

/-- C3: the Structurer splits paragraphs on two consecutive LFs (strip,
drop empties, order preserved) and sentences on runs of `.`/`!`/`?`
(strip, drop empties, paragraph order); on
`"Hello world. Foo bar!\n\nNext para? Yes."` the paragraphs are
`["Hello world. Foo bar!", "Next para? Yes."]` and the sentences are
`["Hello world", "Foo bar", "Next para", "Yes"]`. -/
theorem structurer_paragraphs_sentences_example :
    (parseTextToStructuredData ("Hello world. Foo bar!\n\nNext para? Yes.").data).paragraphs
      = [("Hello world. Foo bar!").data, ("Next para? Yes.").data] ∧
    (parseTextToStructuredData ("Hello world. Foo bar!\n\nNext para? Yes.").data).sentences
      = [("Hello world").data, ("Foo bar").data, ("Next para").data, ("Yes").data] := by
  constructor <;> decide

/-- C6: the CSV encoder emits one `(1-based index, line)` data row per line
of `text.splitlines()` after the header; `"a\nb\n\nc"` yields rows
`(1,"a") (2,"b") (3,"") (4,"c")`; empty text has zero lines and yields
exactly the fallback row `(1, "")`; in general a zero-line text yields
exactly the fallback row `(1, text)`, and a text with lines yields exactly
the enumerated line rows. -/
theorem csv_line_rows :
    csvRows ("a\nb\n\nc").data
      = [(1, ("a").data), (2, ("b").data), (3, []), (4, ("c").data)] ∧
    csvRows [] = [(1, ([] : List Char))] ∧
    (∀ t : List Char, splitlines t = [] → csvRows t = [(1, t)]) ∧
    (∀ t : List Char, splitlines t ≠ [] →
      csvRows t = (splitlines t).enum.map (fun p => (p.1 + 1, p.2))) := by
  refine ⟨by decide, by decide, ?_, ?_⟩
  · intro t h
    simp [csvRows, h]
  · intro t h
    simp [csvRows, List.length_eq_zero, h]

/-- Witness for the general conjuncts of C6 at concrete inputs. -/
theorem csv_line_rows_witness :
    splitlines ([] : List Char) = [] ∧ csvRows ([] : List Char) = [(1, [])] ∧
    splitlines ("q").data ≠ [] ∧
    csvRows ("q").data = (splitlines ("q").data).enum.map (fun p => (p.1 + 1, p.2)) :=
  ⟨by decide, csv_line_rows.2.2.1 [] (by decide), by decide,
    csv_line_rows.2.2.2 (("q").data) (by decide)⟩

/-- C7: whatever internal fault the parsing body raises, the
`except` handler of `_parse_text_to_structured_data` swallows it and
returns the degenerate structure: the whole text as single paragraph and
single sentence, whitespace-split words, `page_count = 1`. -/
theorem structurer_degenerate_fallback
    (body : List Char → Except Unit StructuredData) (t : List Char) (e : Unit)
    (h : body t = Except.error e) :
    structureWithFallback body t =
      { paragraphs := [t], sentences := [t], words := pySplit t, page_count := 1 } := by
  simp [structureWithFallback, h]

/-- Witness for C7: a body that faults on the concrete text `"boom"`. -/
theorem structurer_degenerate_fallback_witness :
    (fun _ : List Char => (Except.error () : Except Unit StructuredData)) (("boom").data)
        = Except.error () ∧
    structureWithFallback (fun _ => Except.error ()) (("boom").data) =
      { paragraphs := [("boom").data], sentences := [("boom").data],
        words := pySplit (("boom").data), page_count := 1 } :=
  ⟨rfl, structurer_degenerate_fallback (fun _ => Except.error ()) (("boom").data) () rfl⟩

/-- C1: for a document with at least one page all of whose pages have
blank extracted text, the upload-path extraction operation ends in the
`NoTextExtracted` failure (HTTP 400 "no readable text") instead of
producing a result. -/
theorem blank_pages_upload_fails (pages : List (List Char))
    (hne : pages ≠ []) (hblank : ∀ t ∈ pages, strip t = []) :
    uploadExtract pages = Except.error ExtractError.noTextExtracted := by
  have hb : pageBlocks pages = [] := pageBlocksFrom_nil_of_blank pages hblank 0
  have hok : processPdf pages = Except.ok [] := by
    unfold processPdf
    rw [if_neg hne, hb]
    rfl
  unfold uploadExtract
  rw [hok]
  rfl

/-- Witness for C1: a two-page document whose pages are `" "` and `""`. -/
theorem blank_pages_upload_fails_witness :
    ([(" ").data, ([] : List Char)] ≠ ([] : List (List Char))) ∧
    (∀ t ∈ [(" ").data, ([] : List Char)], strip t = []) ∧
    uploadExtract [(" ").data, []] = Except.error ExtractError.noTextExtracted :=
  ⟨by decide, by decide, blank_pages_upload_fails _ (by decide) (by decide)⟩

/-- C5: the Text Extractor's cleaning trims each line, drops blank lines,
rejoins with single newlines and collapses newline runs; a page with no
recognisable text yields the empty string (not an error): empty input maps
to empty output, an input whose lines are all blank maps to empty output,
a concrete input is normalised as described, and no output ever contains a
triple newline. -/
theorem extractor_clean_behavior :
    cleanText [] = [] ∧
    (∀ t : List Char,
      (∀ l ∈ splitOnPred (fun c => c = '\n') t, strip l = []) → cleanText t = []) ∧
    cleanText (("  Hello  \n\n   \nWorld  ").data) = ("Hello\nWorld").data ∧
    (∀ t : List Char, hasTripleLF (cleanText t) = false) := by
  refine ⟨rfl, ?_, by decide, ?_⟩
  · intro t h
    have hcl : cleanLines t = [] := by
      unfold cleanLines
      rw [List.filter_eq_nil_iff]
      intro a ha
      rcases List.mem_map.mp ha with ⟨l, hl, rfl⟩
      simp [h l hl]
    rw [cleanText_eq_join, hcl]
    rfl
  · intro t
    rw [cleanText_eq_join]
    exact noTriple_of_noDouble (cleanJoin_noDouble t)

/-- Witness for C5 at the all-blank input `"  \n "`. -/
theorem extractor_clean_behavior_witness :
    (∀ l ∈ splitOnPred (fun c => c = '\n') (("  \n ").data), strip l = []) ∧
    cleanText (("  \n ").data) = [] :=
  ⟨by decide, extractor_clean_behavior.2.1 (("  \n ").data) (by decide)⟩

/-- C9: the cleaned text of a page has no blank lines — every kept line is
non-empty with no leading or trailing whitespace — so the cleaned text
never contains two consecutive newlines, the final collapse loop is the
identity on it, and a page block (marker, newline, cleaned text) joined by
the Orchestrator contains no double newline either: the only double
newlines of a document text are the join separators. -/
theorem extractor_output_no_blank_lines :
    (∀ t : List Char, hasDoubleLF (cleanText t) = false) ∧
    (∀ t : List Char,
      collapseLoop (joinSep ['\n'] (cleanLines t)) = joinSep ['\n'] (cleanLines t)) ∧
    (∀ t l : List Char, l ∈ cleanLines t → l ≠ [] ∧
      (∀ c, l.head? = some c → isSpace c = false) ∧
      (∀ c, l.getLast? = some c → isSpace c = false)) ∧
    (∀ (i : Nat) (t : List Char), hasDoubleLF (markerBlock i (cleanText t)) = false) := by
  refine ⟨?_, ?_, ?_, hasDoubleLF_markerBlock⟩
  · intro t
    rw [cleanText_eq_join]
    exact cleanJoin_noDouble t
  · intro t
    exact collapseFuel_of_noTriple
      (noTriple_of_noDouble (cleanJoin_noDouble t)) _
  · intro t l hl
    exact ⟨(mem_cleanLines hl).1, (mem_cleanLines hl).2.2.1, (mem_cleanLines hl).2.2.2⟩

/-- Witness for C9: the line `"a"` kept from cleaning `" a \nb "`. -/
theorem extractor_output_no_blank_lines_witness :
    ("a").data ∈ cleanLines ((" a \nb ").data) ∧
    (("a").data ≠ [] ∧
      (∀ c, (("a").data).head? = some c → isSpace c = false) ∧
      (∀ c, (("a").data).getLast? = some c → isSpace c = false)) :=
  ⟨by decide,
    extractor_output_no_blank_lines.2.2.1 ((" a \nb ").data) (("a").data) (by decide)⟩

lemma mem_markerIndicesFrom_ge :
    ∀ (pages : List (List Char)) (i m : Nat),
      m ∈ markerIndicesFrom i pages → i + 1 ≤ m := by
  intro pages
  induction pages with
  | nil => intro i m h; simp [markerIndicesFrom] at h
  | cons t rest ih =>
    intro i m h
    simp only [markerIndicesFrom] at h
    by_cases hs : strip t ≠ []
    · rw [if_pos hs] at h
      rcases List.mem_cons.mp h with rfl | h'
      · exact Nat.le_refl _
      · have := ih (i + 1) m h'
        omega
    · rw [if_neg hs] at h
      have := ih (i + 1) m h
      omega

lemma chain_markerIndicesFrom (pages : List (List Char)) :
    ∀ i, List.Chain' (· < ·) (markerIndicesFrom i pages) := by
  induction pages with
  | nil => intro i; simp [markerIndicesFrom]
  | cons t rest ih =>
    intro i
    simp only [markerIndicesFrom]
    by_cases hs : strip t ≠ []
    · rw [if_pos hs]
      refine List.chain'_cons'.mpr ⟨?_, ih (i + 1)⟩
      intro y hy
      have hym : y ∈ markerIndicesFrom (i + 1) rest := List.mem_of_mem_head? hy
      have := mem_markerIndicesFrom_ge rest (i + 1) y hym
      omega
    · rw [if_neg hs]
      exact ih (i + 1)

lemma mem_markerIndicesFrom_iff :
    ∀ (pages : List (List Char)) (i m : Nat),
      m ∈ markerIndicesFrom i pages ↔
        ∃ j t, pages.get? j = some t ∧ strip t ≠ [] ∧ m = i + j + 1 := by
  intro pages
  induction pages with
  | nil =>
    intro i m
    simp [markerIndicesFrom]
  | cons t rest ih =>
    intro i m
    simp only [markerIndicesFrom]
    by_cases hs : strip t ≠ []
    · rw [if_pos hs]
      constructor
      · intro h
        rcases List.mem_cons.mp h with rfl | h'
        · exact ⟨0, t, rfl, hs, by omega⟩
        · rcases (ih (i + 1) m).mp h' with ⟨j, u, hj, hsu, hm⟩
          exact ⟨j + 1, u, by simpa using hj, hsu, by omega⟩
      · rintro ⟨j, u, hj, hsu, hm⟩
        cases j with
        | zero =>
          simp only [List.get?_cons_zero, Option.some_inj] at hj
          subst hj
          have : m = i + 1 := by omega
          subst this
          exact List.mem_cons_self _ _
        | succ j' =>
          refine List.mem_cons_of_mem _ ((ih (i + 1) m).mpr ⟨j', u, ?_, hsu, by omega⟩)
          simpa using hj
    · rw [if_neg hs]
      constructor
      · intro h
        rcases (ih (i + 1) m).mp h with ⟨j, u, hj, hsu, hm⟩
        exact ⟨j + 1, u, by simpa using hj, hsu, by omega⟩
      · rintro ⟨j, u, hj, hsu, hm⟩
        cases j with
        | zero =>
          simp only [List.get?_cons_zero, Option.some_inj] at hj
          subst hj
          exact absurd hsu hs
        | succ j' =>
          refine (ih (i + 1) m).mpr ⟨j', u, ?_, hsu, by omega⟩
          simpa using hj

lemma pageBlocksFrom_length :
    ∀ (pages : List (List Char)) (i : Nat),
      (pageBlocksFrom i pages).length
        = (pages.filter (fun t => strip t ≠ [])).length := by
  intro pages
  induction pages with
  | nil => intro i; rfl
  | cons t rest ih =>
    intro i
    simp only [pageBlocksFrom, List.filter_cons]
    by_cases hs : strip t ≠ []
    · rw [if_pos hs]
      simp [hs, ih (i + 1)]
    · rw [if_neg hs]
      simp [hs, ih (i + 1)]

lemma mem_pageBlocksFrom :
    ∀ (pages : List (List Char)) (i j : Nat) (t : List Char),
      pages.get? j = some t → strip t ≠ [] →
        markerBlock (i + j) t ∈ pageBlocksFrom i pages := by
  intro pages
  induction pages with
  | nil => intro i j t hj; simp at hj
  | cons u rest ih =>
    intro i j t hj hs
    cases j with
    | zero =>
      simp only [List.get?_cons_zero, Option.some_inj] at hj
      subst hj
      simp only [pageBlocksFrom, if_pos hs]
      exact List.mem_cons_self _ _
    | succ j' =>
      simp only [List.get?_cons_succ] at hj
      have hidx : i + (j' + 1) = (i + 1) + j' := by omega
      simp only [pageBlocksFrom]
      by_cases hsu : strip u ≠ []
      · rw [if_pos hsu]
        refine List.mem_cons_of_mem _ ?_
        rw [hidx]
        exact ih (i + 1) j' t hj hs
      · rw [if_neg hsu]
        rw [hidx]
        exact ih (i + 1) j' t hj hs

lemma mem_joinSep_parts :
    ∀ (sep : List Char) (L : List (List Char)) (b : List Char),
      b ∈ L → ∃ u v, joinSep sep L = u ++ b ++ v := by
  intro sep L
  induction L with
  | nil => intro b hb; simp at hb
  | cons x xs ih =>
    intro b hb
    rcases List.mem_cons.mp hb with rfl | hb'
    · cases xs with
      | nil => exact ⟨[], [], by simp [joinSep]⟩
      | cons y ys =>
        exact ⟨[], sep ++ joinSep sep (y :: ys), by simp [joinSep, List.append_assoc]⟩
    · have hxs : xs ≠ [] := by
        intro hnil
        rw [hnil] at hb'
        simp at hb'
      rcases ih b hb' with ⟨u, v, huv⟩
      rcases hxc : xs with _ | ⟨y, ys⟩
      · exact absurd hxc hxs
      · refine ⟨x ++ sep ++ u, v, ?_⟩
        rw [hxc] at huv
        simp only [joinSep, huv]
        simp [List.append_assoc]

/-- C4: for a multi-page document with at least one non-blank page, the
emitted page markers are strictly increasing, a marker for page `i+1` is
emitted iff page index `i` holds a non-blank page, blank pages contribute
no block (the block count equals the non-blank page count), at least one
marker exists, and each emitted marker header occurs inside the joined
document text. -/
theorem page_markers_increasing_nonblank (pages : List (List Char))
    (_hmulti : 2 ≤ pages.length) (hnb : ∃ t ∈ pages, strip t ≠ []) :
    List.Chain' (· < ·) (markerIndices pages) ∧
    (∀ i : Nat, (i + 1) ∈ markerIndices pages ↔
      ∃ t, pages.get? i = some t ∧ strip t ≠ []) ∧
    (pageBlocks pages).length = (pages.filter (fun t => strip t ≠ [])).length ∧
    markerIndices pages ≠ [] ∧
    (∀ (i : Nat) (t : List Char), pages.get? i = some t → strip t ≠ [] →
      ∃ u v, joinSep ['\n', '\n'] (pageBlocks pages) = u ++ markerStr (i + 1) ++ v) := by
  refine ⟨chain_markerIndicesFrom pages 0, ?_, pageBlocksFrom_length pages 0, ?_, ?_⟩
  · intro i
    unfold markerIndices
    rw [mem_markerIndicesFrom_iff pages 0 (i + 1)]
    constructor
    · rintro ⟨j, u, hj, hsu, hm⟩
      have : j = i := by omega
      subst this
      exact ⟨u, hj, hsu⟩
    · rintro ⟨u, hj, hsu⟩
      exact ⟨i, u, hj, hsu, by omega⟩
  · rcases hnb with ⟨t, ht, hs⟩
    rcases List.get?_of_mem ht with ⟨j, hj⟩
    have hmem : (j + 1) ∈ markerIndicesFrom 0 pages :=
      (mem_markerIndicesFrom_iff pages 0 (j + 1)).mpr ⟨j, t, hj, hs, by omega⟩
    unfold markerIndices
    exact List.ne_nil_of_mem hmem
  · intro i t hi hs
    have hbmem : markerBlock i t ∈ pageBlocks pages := by
      have := mem_pageBlocksFrom pages 0 i t hi hs
      simpa using this
    rcases mem_joinSep_parts ['\n', '\n'] (pageBlocks pages) (markerBlock i t) hbmem
      with ⟨u, v, huv⟩
    refine ⟨u, '\n' :: t ++ v, ?_⟩
    rw [huv]
    unfold markerBlock
    simp [List.append_assoc]

/-- Witness for C4: pages `["", "x"]` — two pages, page 2 non-blank. -/
theorem page_markers_increasing_nonblank_witness :
    2 ≤ ([([] : List Char), ("x").data] : List (List Char)).length ∧
    (∃ t ∈ [([] : List Char), ("x").data], strip t ≠ []) ∧
    (List.Chain' (· < ·) (markerIndices [([] : List Char), ("x").data]) ∧
    (∀ i : Nat, (i + 1) ∈ markerIndices [([] : List Char), ("x").data] ↔
      ∃ t, ([([] : List Char), ("x").data] : List (List Char)).get? i = some t ∧ strip t ≠ []) ∧
    (pageBlocks [([] : List Char), ("x").data]).length
      = (([([] : List Char), ("x").data] : List (List Char)).filter
          (fun t => strip t ≠ [])).length ∧
    markerIndices [([] : List Char), ("x").data] ≠ [] ∧
    (∀ (i : Nat) (t : List Char),
      ([([] : List Char), ("x").data] : List (List Char)).get? i = some t →
        strip t ≠ [] →
      ∃ u v, joinSep ['\n', '\n'] (pageBlocks [([] : List Char), ("x").data])
        = u ++ markerStr (i + 1) ++ v)) :=
  ⟨by decide, by decide,
    page_markers_increasing_nonblank [([] : List Char), ("x").data]
      (by decide) (by decide)⟩

/-- C8: in the (value-faithfully round-tripped) JSON object,
`document_info.total_words` equals the length of the whitespace-split of
`content.full_text` — computed from the raw document text — and the
`content.paragraphs` / `content.sentences` / `content.words` lists are
exactly the Structurer's outputs. -/
theorem json_roundtrip_consistency :
    ∀ t : List Char,
      (convertToJson t).document_info.total_words
        = (pySplit (convertToJson t).content.full_text).length ∧
      (convertToJson t).content.paragraphs = (parseTextToStructuredData t).paragraphs ∧
      (convertToJson t).content.sentences = (parseTextToStructuredData t).sentences ∧
      (convertToJson t).content.words = (parseTextToStructuredData t).words := by
  intro t
  exact ⟨rfl, rfl, rfl, rfl⟩

/-- C10 (counterexample): when the caller-supplied output path itself ends
in `.txt`, `with_suffix('.txt')` is the identity, the CSV write overwrites
the raw-text write at the same path, and no second artifact holding the
document text verbatim remains — the claim fails for such a path. -/
theorem csv_txt_same_path_overwrite :
    fsbRead
      (convertToFormatCsv (("a").data) ⟨("doc").data, (".txt").data⟩ [])
      (withSuffix ⟨("doc").data, (".txt").data⟩ ((".txt").data))
      ≠ some (FileBody.rawText (("a").data)) := by
  decide

/-- C10 (amended): for every output path whose extension is not `.txt`,
converting to CSV leaves two distinct artifacts: the raw text verbatim at
the `.txt` sibling path, and at the output path the line-oriented CSV
built from the content read back from that text file. -/
theorem csv_writes_txt_sibling (text : List Char) (out : OutPath) (fs : FSB)
    (h : out.ext ≠ (".txt").data) :
    fsbRead (convertToFormatCsv text out fs) (withSuffix out ((".txt").data))
        = some (FileBody.rawText text) ∧
    fsbRead (convertToFormatCsv text out fs) out
        = some (FileBody.csvBody (csvFileContent text)) ∧
    withSuffix out ((".txt").data) ≠ out := by
  have hne : withSuffix out ((".txt").data) ≠ out := by
    intro he
    have : (withSuffix out ((".txt").data)).ext = out.ext := by rw [he]
    exact h (by simpa [withSuffix] using this.symm)
  refine ⟨?_, ?_, hne⟩
  · unfold convertToFormatCsv
    simp [fsbRead, fsbWrite, Ne.symm hne]
  · unfold convertToFormatCsv
    simp [fsbRead, fsbWrite]

/-- Witness for the amended C10 at the output path `doc.csv`. -/
theorem csv_writes_txt_sibling_witness :
    ((⟨("doc").data, (".csv").data⟩ : OutPath).ext ≠ (".txt").data) ∧
    (fsbRead (convertToFormatCsv (("a").data) ⟨("doc").data, (".csv").data⟩ [])
        (withSuffix ⟨("doc").data, (".csv").data⟩ ((".txt").data))
        = some (FileBody.rawText (("a").data)) ∧
      fsbRead (convertToFormatCsv (("a").data) ⟨("doc").data, (".csv").data⟩ [])
        ⟨("doc").data, (".csv").data⟩
        = some (FileBody.csvBody (csvFileContent (("a").data))) ∧
      withSuffix (⟨("doc").data, (".csv").data⟩ : OutPath) ((".txt").data)
        ≠ ⟨("doc").data, (".csv").data⟩) :=
  ⟨by decide,
    csv_writes_txt_sibling (("a").data) ⟨("doc").data, (".csv").data⟩ [] (by decide)⟩

end OCRPipeline
